import Mathlib

/-!
Verification of the in-memory image container `vw::ImageView` from
`src/vw/Image/ImageView.h`.

The C++ class is shallowly embedded as follows.

* `Heap α` models the allocation arena: a list of buffers, each buffer a
  `List α` of pixels.  `boost::shared_array<PixelT>` handles are modelled as
  `Option Nat` buffer ids into the arena (`none` is the null handle).
  Allocation (`new PixelT[size]`) appends a buffer; deallocation is not
  observable by any claim and is not modelled (buffers are simply retained).
* `ImageView α` mirrors the data members of the C++ class field for field:
  `m_data` (the shared handle), `m_cols`/`m_rows`/`m_planes` (C++ `unsigned`,
  modelled as `Nat` reduced mod `2^32` wherever the C++ performs unsigned
  arithmetic), `m_origin` (the raw pointer `m_data.get()`, always the start of
  the owned buffer in this class), and the `ptrdiff_t` strides as `Int`.
* Reading and writing a pixel through `operator()` are `ImageView.read` /
  `ImageView.write`.  Out-of-range access is undefined behavior in the C++;
  it is modelled as `none` on reads and as a no-op on writes, so every theorem
  about actual pixel values speaks only about defined accesses.
* C++ `unsigned` multiplication is modelled explicitly as `% U32` with
  `U32 = 2^32`.
-/

def U32 : Nat := 4294967296

/-- Allocation arena: buffer id maps to buffer contents. -/
structure Heap (α : Type) where
  bufs : List (List α)

/-- Field-for-field embedding of the data members of `vw::ImageView`. -/
structure ImageView (α : Type) where
  m_data : Option Nat
  m_cols : Nat
  m_rows : Nat
  m_planes : Nat
  m_origin : Option Nat
  m_cstride : Int
  m_rstride : Int
  m_pstride : Int

namespace ImageView

/-- Default constructor `ImageView()`: zero size, null handle, zero strides. -/
def default0 (α : Type) : ImageView α :=
  ⟨none, 0, 0, 0, none, 0, 0, 0⟩

/-- Member `reset()`: releases the handle and zeroes extents and strides.
The heap is untouched (releasing a `shared_array` never mutates other
buffers). -/
def reset (_v : ImageView α) : ImageView α :=
  ⟨none, 0, 0, 0, none, 0, 0, 0⟩

/-- Copy constructor `ImageView(ImageView const&)`: copies every data member;
the buffer handle is shared, the pixels are not copied. -/
def copy (other : ImageView α) : ImageView α :=
  ⟨other.m_data, other.m_cols, other.m_rows, other.m_planes,
   other.m_origin, other.m_cstride, other.m_rstride, other.m_pstride⟩

/-- Offset of the strided addressing formula of `operator()`:
`c*m_cstride + r*m_rstride + p*m_pstride` (in elements, relative to
`m_origin`).  This is the spec formula of section 4.2; `read`/`write` below
use the identical inline expression. -/
def stridedOffset (v : ImageView α) (c r p : Int) : Int :=
  c * v.m_cstride + r * v.m_rstride + p * v.m_pstride

end ImageView

/-- Dereference of `origin + off`: the element `off` slots past the start of
the buffer the pointer designates, `none` when the pointer is null, dangling,
or the address leaves the allocation (undefined behavior in the C++). -/
def derefAt (h : Heap α) (origin : Option Nat) (off : Int) : Option α :=
  match origin with
  | none => none
  | some bid =>
    match h.bufs[bid]? with
    | none => none
    | some buf => if 0 ≤ off then buf[off.toNat]? else none

namespace ImageView

/-- Three-argument `operator()(col,row,plane)`: value of
`*(m_origin + col*m_cstride + row*m_rstride + plane*m_pstride)`. -/
def read (v : ImageView α) (h : Heap α) (c r p : Int) : Option α :=
  derefAt h v.m_origin (c * v.m_cstride + r * v.m_rstride + p * v.m_pstride)

/-- Two-argument `operator()(col,row)`: value of
`*(m_origin + col*m_cstride + row*m_rstride)`. -/
def read2 (v : ImageView α) (h : Heap α) (c r : Int) : Option α :=
  derefAt h v.m_origin (c * v.m_cstride + r * v.m_rstride)

/-- Store through the reference returned by `operator()(col,row,plane)`.
A store outside the owned allocation is undefined behavior in the C++ and is
modelled as a no-op, so it is never relied upon by any theorem. -/
def write (v : ImageView α) (h : Heap α) (c r p : Int) (x : α) : Heap α :=
  match v.m_origin with
  | none => h
  | some bid =>
    match h.bufs[bid]? with
    | none => h
    | some buf =>
      let off := c * v.m_cstride + r * v.m_rstride + p * v.m_pstride
      if 0 ≤ off ∧ off.toNat < buf.length then
        ⟨h.bufs.set bid (buf.set off.toNat x)⟩
      else h

/-- Member `set_size(cols,rows,planes)` of `ImageView.h` lines 165-196.
Arguments are C++ `unsigned`, hence reduced mod `2^32`.  If the requested
extent equals the current extent it is a no-op.  Otherwise
`unsigned size = cols*rows*planes` wraps mod `2^32`; a zero `size` releases
the handle without allocating, a nonzero `size` allocates a fresh buffer of
`size` elements.  `new PixelT[size]` default-initializes the elements (the
model value `un`); when `boost::is_fundamental<PixelT>` holds (`fund`), the
trailing `memset` zero-fills exactly `size * sizeof(PixelT)` bytes, i.e. every
allocated element.  In every non-early-return path the extents are stored as
given, `m_origin = m_data.get()`, and the strides become
`1`, `cols`, `rows*cols` (the latter an unsigned product, so mod `2^32`). -/
def set_size [Zero α] (fund : Bool) (un : α) (h : Heap α) (v : ImageView α)
    (cols rows planes : Nat) : Heap α × ImageView α :=
  if (cols % U32) = v.m_cols ∧ (rows % U32) = v.m_rows ∧ (planes % U32) = v.m_planes then
    (h, v)
  else if ((cols % U32) * (rows % U32) * (planes % U32)) % U32 = 0 then
    (h, ⟨none, cols % U32, rows % U32, planes % U32, none, 1,
         ((cols % U32 : Nat) : Int), (((rows % U32) * (cols % U32) % U32 : Nat) : Int)⟩)
  else
    (⟨h.bufs ++ [List.replicate (((cols % U32) * (rows % U32) * (planes % U32)) % U32)
        (if fund then (0 : α) else un)]⟩,
     ⟨some h.bufs.length, cols % U32, rows % U32, planes % U32, some h.bufs.length, 1,
      ((cols % U32 : Nat) : Int), (((rows % U32) * (cols % U32) % U32 : Nat) : Int)⟩)

end ImageView

/-- Producer satisfying the rasterization capability set of spec section 4.4:
extent queries plus per-coordinate evaluation. -/
structure Producer (α : Type) where
  cols : Nat
  rows : Nat
  planes : Nat
  eval : Nat → Nat → Nat → α

/-- Modelled from the spec: the iteration domain of the generic
`vw::rasterize` (declared in `ImageViewBase.h`, which is not under `src/`).
Section 4.4: the sink's every element is written once, iterating plane-major,
then row-major, then column-minor. -/
def rasterCoords (cols rows planes : Nat) : List (Nat × Nat × Nat) :=
  (List.range planes).flatMap fun p =>
    (List.range rows).flatMap fun r =>
      (List.range cols).map fun c => (c, r, p)

/-- Modelled from the spec: the generic `vw::rasterize` of the rasterization
protocol (its implementation lives outside `src/`).  Section 4.4: it writes
every element of the sink exactly once with the producer's per-coordinate
value, in plane/row/column order. -/
def rasterize (h : Heap α) (src : Producer α) (dest : ImageView α) : Heap α :=
  (rasterCoords dest.m_cols dest.m_rows dest.m_planes).foldl
    (fun hh q => dest.write hh q.1 q.2.1 q.2.2 (src.eval q.1 q.2.1 q.2.2)) h

/-- Assignment `operator=(ImageViewBase<SrcT> const&)` from a rasterizable
producer (`ImageView.h` lines 112-117): `set_size` to the source's extent,
then rasterize the source into `*this`. -/
def assignP [Zero α] (fund : Bool) (un : α) (h : Heap α) (v : ImageView α)
    (src : Producer α) : Heap α × ImageView α :=
  let s := ImageView.set_size fund un h v src.cols src.rows src.planes
  (rasterize s.1 src s.2, s.2)

/-- Modelled from the spec: rasterizing one `ImageView` into another
(`rasterize` member, line 229, via the generic `vw::rasterize` outside
`src/`): every sink element is written with the source's value at the same
coordinate, read through the source's `operator()` as the loop reaches it.
Reads that would be undefined behavior supply the placeholder `d`. -/
def rasterizeView (h : Heap α) (d : α) (src dest : ImageView α) : Heap α :=
  (rasterCoords dest.m_cols dest.m_rows dest.m_planes).foldl
    (fun hh q =>
      dest.write hh q.1 q.2.1 q.2.2 ((src.read hh q.1 q.2.1 q.2.2).getD d)) h

/-- Assignment `operator=` where the source is itself an `ImageView`:
`set_size` to the source's extent, then rasterize the source into `*this`. -/
def assignV [Zero α] (fund : Bool) (un d : α) (h : Heap α) (v : ImageView α)
    (src : ImageView α) : Heap α × ImageView α :=
  let s := ImageView.set_size fund un h v src.m_cols src.m_rows src.m_planes
  (rasterizeView s.1 d src s.2, s.2)

/-- Foreign dense array `vil_image_view` of the VXL interop (an external
library; only its extent queries and pixel values matter here).  `vdata i j p`
is the pixel the foreign array holds at column `i`, row `j`, plane `p`. -/
structure VilImageView (α : Type) where
  ni : Nat
  nj : Nat
  nplanes : Nat
  vdata : Nat → Nat → Nat → α

/-- Error message of `ImageView.h` line 208. -/
def errMsgPlanes (need got : Nat) : String :=
  "incompatible number of planes (need " ++ toString need ++ ", got " ++ toString got ++ ")"

/-- Modelled from the spec: `vil_copy_reformat` of the external VXL library
(not part of this repository): copies every in-range pixel of the foreign
source into the sink. -/
def vil_copy_reformat (h : Heap α) (src : VilImageView α) (dest : ImageView α) : Heap α :=
  rasterize h ⟨dest.m_cols, dest.m_rows, dest.m_planes, src.vdata⟩ dest

/-- Interop assignment `operator=(vil_image_view const&)` of `ImageView.h`
lines 206-213.  `channels` is the compile-time constant
`CompoundNumChannels<PixelT>::value`.  The plane-count check precedes the
resize and the copy; a thrown `ArgumentErr` is modelled as `Except.error`, so
an error result carries no updated heap or view at all (no partial copy). -/
def assignVil [Zero α] (channels : Nat) (fund : Bool) (un : α) (h : Heap α)
    (v : ImageView α) (src : VilImageView α) : Except String (Heap α × ImageView α) :=
  if channels ≠ 1 ∧ src.nplanes ≠ channels then
    Except.error (errMsgPlanes channels src.nplanes)
  else
    let s := ImageView.set_size fund un h v src.ni src.nj
      (if channels = 1 then src.nplanes else 1)
    Except.ok (vil_copy_reformat s.1 src s.2, s.2)

/-- Length of the buffer a view's handle owns, if any. -/
def bufLen (h : Heap α) (v : ImageView α) : Option Nat :=
  v.m_data.bind fun bid => (h.bufs[bid]?).map List.length

/-- Length of the buffer at arena slot `i`, if any. -/
def lenAt (h : Heap α) (i : Nat) : Option Nat :=
  (h.bufs[i]?).map List.length

/-- Canonical dense offset of coordinate `(c,r,p)` in a `C`-column, `R`-row
layout: `c + r*C + p*(R*C)`. -/
def offNat (C R c r p : Nat) : Nat :=
  c + r * C + p * (R * C)

/-- Spec section 3 and 8 invariant: every in-range coordinate of a
non-degenerate view maps, under the strided formula, inside the owned
buffer's allocation. -/
def AddrInv (h : Heap α) (v : ImageView α) : Prop :=
  ∀ bid, v.m_origin = some bid →
    ∃ buf, h.bufs[bid]? = some buf ∧
      ∀ c r p : Nat, c < v.m_cols → r < v.m_rows → p < v.m_planes →
        0 ≤ v.stridedOffset c r p ∧ (v.stridedOffset c r p).toNat < buf.length

/-- Well-formed view states: exactly the states reachable through the public
operations of the class.  Extents fit in `unsigned`; `m_origin` is
`m_data.get()`; a null handle occurs exactly when the last `set_size`
computed a zero (wrapped) element count; a non-null handle owns a live buffer
whose length is the wrapped extent product, with canonical strides. -/
def WF (h : Heap α) (v : ImageView α) : Prop :=
  v.m_cols < U32 ∧ v.m_rows < U32 ∧ v.m_planes < U32 ∧
  v.m_origin = v.m_data ∧
  ((v.m_data = none ∧ (v.m_cols * v.m_rows * v.m_planes) % U32 = 0) ∨
   (∃ bid buf, v.m_data = some bid ∧ h.bufs[bid]? = some buf ∧
      v.m_cstride = 1 ∧ v.m_rstride = (v.m_cols : Int) ∧
      v.m_pstride = ((v.m_rows * v.m_cols % U32 : Nat) : Int) ∧
      buf.length = (v.m_cols * v.m_rows * v.m_planes) % U32))

/-- Concrete 2 by 2 by 1 example arena: one buffer of four zero pixels
(exactly what `set_size true 0 empty (default0 Int) 2 2 1` allocates). -/
def egHeap : Heap Int := ⟨[List.replicate 4 0]⟩

/-- Concrete view owning `egHeap`'s buffer 0 with canonical strides. -/
def egView : ImageView Int := ⟨some 0, 2, 2, 1, some 0, 1, 2, 4⟩


section Helpers

variable {α : Type}

theorem foldl_fixed {β γ : Type*} {f : β → γ → β} :
    ∀ (l : List γ) (b : β), (∀ x y, y ∈ l → f x y = x) → l.foldl f b = b := by
  intro l
  induction l with
  | nil => intro b _; rfl
  | cons q l ih =>
    intro b hfix
    have hq : f b q = b := hfix b q (List.mem_cons_self q l)
    simp only [List.foldl_cons, hq]
    exact ih b fun x y hy => hfix x y (List.mem_cons_of_mem q hy)

theorem list_set_id {l : List α} {n : Nat} {a : α} (hl : l[n]? = some a) :
    l.set n a = l := by
  induction l generalizing n with
  | nil => simp at hl
  | cons b l ih =>
    cases n with
    | zero =>
      simp only [List.getElem?_cons_zero, Option.some.injEq] at hl
      simp [hl]
    | succ m =>
      simp only [List.getElem?_cons_succ] at hl
      simp [ih hl]

theorem toNat_ne_of_ne {a b : Int} (ha : 0 ≤ a) (hb : 0 ≤ b) (hne : a ≠ b) :
    a.toNat ≠ b.toNat := by
  intro he
  exact hne (by rw [← Int.toNat_of_nonneg ha, ← Int.toNat_of_nonneg hb, he])

theorem heap_eta (h : Heap α) : (⟨h.bufs⟩ : Heap α) = h := rfl

end Helpers

namespace ImageView

variable {α : Type}

theorem write_origin_none {v : ImageView α} (hor : v.m_origin = none)
    (h : Heap α) (c r p : Int) (x : α) : v.write h c r p x = h := by
  simp only [write, hor]

theorem read_origin_none {v : ImageView α} (hor : v.m_origin = none)
    (h : Heap α) (c r p : Int) : v.read h c r p = none := by
  simp only [read, derefAt, hor]

theorem read_write_same {v : ImageView α} {h : Heap α} {c r p : Int} (x : α)
    (hsome : (v.read h c r p).isSome) :
    v.read (v.write h c r p x) c r p = some x := by
  rcases hov : v.m_origin with _ | bid
  · rw [read_origin_none hov] at hsome; simp at hsome
  rcases hb : h.bufs[bid]? with _ | buf
  · simp only [read, derefAt, hov, hb] at hsome; simp at hsome
  simp only [read, derefAt, hov, hb] at hsome
  set off := c * v.m_cstride + r * v.m_rstride + p * v.m_pstride with hoff
  by_cases h0 : 0 ≤ off
  · rw [if_pos h0] at hsome
    have hlt : off.toNat < buf.length := by
      by_contra hge
      rw [List.getElem?_eq_none (Nat.le_of_not_lt hge)] at hsome
      simp at hsome
    have hbl : bid < h.bufs.length := by
      rcases List.getElem?_eq_some_iff.mp hb with ⟨hbl, _⟩
      exact hbl
    simp only [write, hov, hb, ← hoff, if_pos (And.intro h0 hlt)]
    simp only [read, derefAt, hov, ← hoff]
    rw [List.getElem?_set_self hbl]
    show (if 0 ≤ off then (buf.set off.toNat x)[off.toNat]? else none) = some x
    rw [if_pos h0]
    exact List.getElem?_set_self hlt
  · rw [if_neg h0] at hsome; simp at hsome

theorem read_write_ne {v : ImageView α} {h : Heap α} {c r p c' r' p' : Int} (x : α)
    (hne : c' * v.m_cstride + r' * v.m_rstride + p' * v.m_pstride ≠
           c * v.m_cstride + r * v.m_rstride + p * v.m_pstride) :
    v.read (v.write h c' r' p' x) c r p = v.read h c r p := by
  rcases hov : v.m_origin with _ | bid
  · rw [write_origin_none hov]
  rcases hb : h.bufs[bid]? with _ | buf
  · simp only [write, hov, hb]
  set offw := c' * v.m_cstride + r' * v.m_rstride + p' * v.m_pstride with how
  set offr := c * v.m_cstride + r * v.m_rstride + p * v.m_pstride with hor2
  by_cases hg : 0 ≤ offw ∧ offw.toNat < buf.length
  · have hbl : bid < h.bufs.length := by
      rcases List.getElem?_eq_some_iff.mp hb with ⟨hbl, _⟩
      exact hbl
    simp only [write, hov, hb, ← how, if_pos hg]
    simp only [read, derefAt, hov, ← hor2, hb]
    rw [List.getElem?_set_self hbl]
    show (if 0 ≤ offr then (buf.set offw.toNat x)[offr.toNat]? else none) =
      if 0 ≤ offr then buf[offr.toNat]? else none
    by_cases h0 : 0 ≤ offr
    · rw [if_pos h0, if_pos h0]
      exact List.getElem?_set_ne (toNat_ne_of_ne hg.1 h0 hne)
    · rw [if_neg h0, if_neg h0]
  · simp only [write, hov, hb, ← how, if_neg hg]

theorem write_lenAt {v : ImageView α} (h : Heap α) (c r p : Int) (x : α) (i : Nat) :
    lenAt (v.write h c r p x) i = lenAt h i := by
  rcases hov : v.m_origin with _ | bid
  · rw [write_origin_none hov]
  rcases hb : h.bufs[bid]? with _ | buf
  · simp only [write, hov, hb]
  set offw := c * v.m_cstride + r * v.m_rstride + p * v.m_pstride with how
  by_cases hg : 0 ≤ offw ∧ offw.toNat < buf.length
  · have hbl : bid < h.bufs.length := by
      rcases List.getElem?_eq_some_iff.mp hb with ⟨hbl, _⟩
      exact hbl
    simp only [write, hov, hb, ← how, if_pos hg, lenAt]
    by_cases hib : i = bid
    · subst hib
      rw [List.getElem?_set_self hbl, hb]
      simp
    · rw [List.getElem?_set_ne fun he => hib he.symm]
  · simp only [write, hov, hb, ← how, if_neg hg]

theorem read_isSome_congr {v : ImageView α} {h' h : Heap α}
    (hl : ∀ i, lenAt h' i = lenAt h i) (c r p : Int) :
    (v.read h' c r p).isSome = (v.read h c r p).isSome := by
  rcases hov : v.m_origin with _ | bid
  · rw [read_origin_none hov, read_origin_none hov]
  have hbid := hl bid
  simp only [lenAt] at hbid
  rcases hb : h.bufs[bid]? with _ | buf
  · rw [hb] at hbid
    simp only [Option.map_none', Option.map_eq_none'] at hbid
    simp only [read, derefAt, hov, hb, hbid]
  · rw [hb] at hbid
    rcases hb' : h'.bufs[bid]? with _ | buf'
    · rw [hb'] at hbid; simp at hbid
    rw [hb'] at hbid
    simp only [Option.map_some', Option.some.injEq] at hbid
    simp only [read, derefAt, hov, hb, hb']
    set offr := c * v.m_cstride + r * v.m_rstride + p * v.m_pstride
    by_cases h0 : 0 ≤ offr
    · rw [if_pos h0, if_pos h0]
      by_cases hlt : offr.toNat < buf.length
      · rw [List.getElem?_eq_some_iff.mpr ⟨hbid ▸ hlt, rfl⟩,
           List.getElem?_eq_some_iff.mpr ⟨hlt, rfl⟩]
        rfl
      · rw [List.getElem?_eq_none (Nat.le_of_not_lt (hbid ▸ hlt)),
           List.getElem?_eq_none (Nat.le_of_not_lt hlt)]
    · rw [if_neg h0, if_neg h0]

end ImageView

section Arith

theorem offNat_repack (C R c r p : Nat) : offNat C R c r p = c + C * (r + R * p) := by
  unfold offNat; ring

theorem offNat_lt {C R P c r p : Nat} (hc : c < C) (hr : r < R) (hp : p < P) :
    offNat C R c r p < C * R * P := by
  rw [offNat_repack]
  have h2 : c + C * (r + R * p) < C * (r + R * p + 1) := by
    have hms : C * (r + R * p + 1) = C * (r + R * p) + C := by ring
    omega
  have h3 : r + R * p + 1 ≤ R * P := by
    have h4 : R * (p + 1) ≤ R * P := Nat.mul_le_mul_left R hp
    have h5 : R * (p + 1) = R * p + R := Nat.mul_succ R p
    omega
  calc c + C * (r + R * p) < C * (r + R * p + 1) := h2
    _ ≤ C * (R * P) := Nat.mul_le_mul_left C h3
    _ = C * R * P := by ring

theorem offNat_inj {C R c r p c' r' p' : Nat} (hc : c < C) (hc' : c' < C)
    (hr : r < R) (hr' : r' < R)
    (he : offNat C R c r p = offNat C R c' r' p') :
    c = c' ∧ r = r' ∧ p = p' := by
  have hC : 0 < C := Nat.lt_of_le_of_lt (Nat.zero_le c) hc
  have hR : 0 < R := Nat.lt_of_le_of_lt (Nat.zero_le r) hr
  rw [offNat_repack, offNat_repack] at he
  have hcc : c = c' := by
    have h1 : (c + C * (r + R * p)) % C = (c' + C * (r' + R * p')) % C := by rw [he]
    rwa [Nat.add_mul_mod_self_left, Nat.add_mul_mod_self_left,
      Nat.mod_eq_of_lt hc, Nat.mod_eq_of_lt hc'] at h1
  have hkk : r + R * p = r' + R * p' := by
    have h2 : (c + C * (r + R * p)) / C = (c' + C * (r' + R * p')) / C := by rw [he]
    rwa [Nat.add_mul_div_left _ _ hC, Nat.add_mul_div_left _ _ hC,
      Nat.div_eq_of_lt hc, Nat.div_eq_of_lt hc', Nat.zero_add, Nat.zero_add] at h2
  have hrr : r = r' := by
    have h3 : (r + R * p) % R = (r' + R * p') % R := by rw [hkk]
    rwa [Nat.add_mul_mod_self_left, Nat.add_mul_mod_self_left,
      Nat.mod_eq_of_lt hr, Nat.mod_eq_of_lt hr'] at h3
  have hpp : p = p' := by
    have h4 : (r + R * p) / R = (r' + R * p') / R := by rw [hkk]
    rwa [Nat.add_mul_div_left _ _ hR, Nat.add_mul_div_left _ _ hR,
      Nat.div_eq_of_lt hr, Nat.div_eq_of_lt hr', Nat.zero_add, Nat.zero_add] at h4
  exact ⟨hcc, hrr, hpp⟩

end Arith

theorem mem_rasterCoords {C R P : Nat} {q : Nat × Nat × Nat} :
    q ∈ rasterCoords C R P ↔ q.1 < C ∧ q.2.1 < R ∧ q.2.2 < P := by
  obtain ⟨c, r, p⟩ := q
  simp only [rasterCoords, List.mem_flatMap, List.mem_map, List.mem_range, Prod.mk.injEq]
  constructor
  · rintro ⟨p1, hp1, r1, hr1, c1, hc1, hce, hre, hpe⟩
    subst hce; subst hre; subst hpe
    exact ⟨hc1, hr1, hp1⟩
  · rintro ⟨hc, hr, hp⟩
    exact ⟨p, hp, r, hr, c, hc, rfl, rfl, rfl⟩

namespace ImageView

variable {α : Type}

theorem offInt_canonical {v : ImageView α} (hcs : v.m_cstride = 1)
    (hrs : v.m_rstride = (v.m_cols : Int))
    (hps : v.m_pstride = ((v.m_rows * v.m_cols : Nat) : Int)) (c r p : Nat) :
    (c : Int) * v.m_cstride + (r : Int) * v.m_rstride + (p : Int) * v.m_pstride =
      ((offNat v.m_cols v.m_rows c r p : Nat) : Int) := by
  rw [hcs, hrs, hps]
  push_cast [offNat]
  ring

theorem foldl_write_lenAt (v : ImageView α) (g : Heap α → Nat × Nat × Nat → α) :
    ∀ (l : List (Nat × Nat × Nat)) (h : Heap α) (i : Nat),
      lenAt (l.foldl (fun hh q => v.write hh q.1 q.2.1 q.2.2 (g hh q)) h) i = lenAt h i := by
  intro l
  induction l with
  | nil => intro h i; rfl
  | cons q l ih =>
    intro h i
    simp only [List.foldl_cons]
    rw [ih]
    exact write_lenAt h q.1 q.2.1 q.2.2 (g h q) i

theorem read_isSome_of_lenAt {v : ImageView α} {h : Heap α} {bid : Nat}
    (hor : v.m_origin = some bid)
    (hcs : v.m_cstride = 1) (hrs : v.m_rstride = (v.m_cols : Int))
    (hps : v.m_pstride = ((v.m_rows * v.m_cols : Nat) : Int))
    (hlen : lenAt h bid = some (v.m_cols * v.m_rows * v.m_planes))
    {c r p : Nat} (hc : c < v.m_cols) (hr : r < v.m_rows) (hp : p < v.m_planes) :
    (v.read h (c : Int) (r : Int) (p : Int)).isSome := by
  rcases Option.map_eq_some'.mp hlen with ⟨buf, hb, hbl⟩
  simp only [read, derefAt, hor, hb, offInt_canonical hcs hrs hps]
  rw [if_pos (by positivity)]
  rw [Int.toNat_ofNat]
  rw [List.getElem?_eq_getElem (by rw [hbl]; exact offNat_lt hc hr hp)]
  simp

theorem write_read_self (v : ImageView α) (h : Heap α) (c r p : Int) (d : α) :
    v.write h c r p ((v.read h c r p).getD d) = h := by
  rcases hov : v.m_origin with _ | bid
  · exact write_origin_none hov h c r p _
  rcases hb : h.bufs[bid]? with _ | buf
  · simp only [write, hov, hb]
  set off := c * v.m_cstride + r * v.m_rstride + p * v.m_pstride with hoff
  by_cases h0 : 0 ≤ off
  · by_cases hlt : off.toNat < buf.length
    · have hsome : buf[off.toNat]? = some buf[off.toNat] := List.getElem?_eq_getElem hlt
      simp only [write, read, derefAt, hov, hb, ← hoff, if_pos h0, hsome, Option.getD_some,
        if_pos (And.intro h0 hlt)]
      rw [list_set_id hsome, list_set_id hb]
    · simp only [write, read, derefAt, hov, hb, ← hoff, if_pos h0,
        List.getElem?_eq_none (Nat.le_of_not_lt hlt), Option.getD_none]
      rw [if_neg (by intro hcon; exact hlt hcon.2)]
  · simp only [write, read, derefAt, hov, hb, ← hoff, if_neg h0, Option.getD_none]
    rw [if_neg (by intro hcon; exact h0 hcon.1)]

end ImageView

namespace ImageView

variable {α : Type}

theorem fold_write_read (v : ImageView α) (f : Nat → Nat → Nat → α) {bid : Nat}
    (hor : v.m_origin = some bid)
    (hcs : v.m_cstride = 1) (hrs : v.m_rstride = (v.m_cols : Int))
    (hps : v.m_pstride = ((v.m_rows * v.m_cols : Nat) : Int)) :
    ∀ (l : List (Nat × Nat × Nat)) (h : Heap α),
      lenAt h bid = some (v.m_cols * v.m_rows * v.m_planes) →
      (∀ q ∈ l, q.1 < v.m_cols ∧ q.2.1 < v.m_rows ∧ q.2.2 < v.m_planes) →
      ∀ c r p : Nat, c < v.m_cols → r < v.m_rows → p < v.m_planes → (c, r, p) ∈ l →
      v.read (l.foldl (fun hh q => v.write hh q.1 q.2.1 q.2.2 (f q.1 q.2.1 q.2.2)) h)
        (c : Int) (r : Int) (p : Int) = some (f c r p) := by
  intro l
  induction l using List.reverseRecOn with
  | nil =>
    intro h _ _ c r p _ _ _ hmem
    simp at hmem
  | append_singleton l q ih =>
    intro h hlen hdom c r p hc hr hp hmem
    have hlen2 : lenAt
        (l.foldl (fun hh q => v.write hh q.1 q.2.1 q.2.2 (f q.1 q.2.1 q.2.2)) h) bid =
        some (v.m_cols * v.m_rows * v.m_planes) := by
      rw [foldl_write_lenAt v (fun _ q => f q.1 q.2.1 q.2.2) l h bid]
      exact hlen
    have hdoml : ∀ q2 ∈ l, q2.1 < v.m_cols ∧ q2.2.1 < v.m_rows ∧ q2.2.2 < v.m_planes :=
      fun q2 hq2 => hdom q2 (List.mem_append_left _ hq2)
    rw [List.foldl_append]
    simp only [List.foldl_cons, List.foldl_nil]
    by_cases hqe : q = (c, r, p)
    · subst hqe
      exact read_write_same _
        (read_isSome_of_lenAt hor hcs hrs hps hlen2 hc hr hp)
    · obtain ⟨qc, qr, qp⟩ := q
      have hqdom := hdom (qc, qr, qp) (List.mem_append_right _ (List.mem_singleton_self _))
      have hoffne : (qc : Int) * v.m_cstride + (qr : Int) * v.m_rstride +
          (qp : Int) * v.m_pstride ≠
          (c : Int) * v.m_cstride + (r : Int) * v.m_rstride + (p : Int) * v.m_pstride := by
        rw [offInt_canonical hcs hrs hps, offInt_canonical hcs hrs hps]
        intro he
        have heN : offNat v.m_cols v.m_rows qc qr qp = offNat v.m_cols v.m_rows c r p :=
          Nat.cast_injective he
        obtain ⟨e1, e2, e3⟩ := offNat_inj hqdom.1 hc hqdom.2.1 hr heN
        have e1' : qc = c := e1
        have e2' : qr = r := e2
        have e3' : qp = p := e3
        exact hqe (by rw [e1', e2', e3'])
      rw [read_write_ne _ hoffne]
      have hmeml : (c, r, p) ∈ l := by
        rcases List.mem_append.mp hmem with hin | hin
        · exact hin
        · exact absurd (List.mem_singleton.mp hin).symm hqe
      exact ih h hlen hdoml c r p hc hr hp hmeml

theorem set_size_noop [Zero α] {v : ImageView α} {cols rows planes : Nat}
    (fund : Bool) (un : α) (h : Heap α)
    (heq : cols % U32 = v.m_cols ∧ rows % U32 = v.m_rows ∧ planes % U32 = v.m_planes) :
    set_size fund un h v cols rows planes = (h, v) := by
  rw [set_size, if_pos heq]

theorem set_size_zero [Zero α] {v : ImageView α} {cols rows planes : Nat}
    (fund : Bool) (un : α) (h : Heap α)
    (hne : ¬(cols % U32 = v.m_cols ∧ rows % U32 = v.m_rows ∧ planes % U32 = v.m_planes))
    (hz : ((cols % U32) * (rows % U32) * (planes % U32)) % U32 = 0) :
    set_size fund un h v cols rows planes =
      (h, ⟨none, cols % U32, rows % U32, planes % U32, none, 1,
           ((cols % U32 : Nat) : Int), (((rows % U32) * (cols % U32) % U32 : Nat) : Int)⟩) := by
  rw [set_size, if_neg hne, if_pos hz]

theorem set_size_alloc [Zero α] {v : ImageView α} {cols rows planes : Nat}
    (fund : Bool) (un : α) (h : Heap α)
    (hne : ¬(cols % U32 = v.m_cols ∧ rows % U32 = v.m_rows ∧ planes % U32 = v.m_planes))
    (hz : ¬((cols % U32) * (rows % U32) * (planes % U32)) % U32 = 0) :
    set_size fund un h v cols rows planes =
      (⟨h.bufs ++ [List.replicate (((cols % U32) * (rows % U32) * (planes % U32)) % U32)
          (if fund then (0 : α) else un)]⟩,
       ⟨some h.bufs.length, cols % U32, rows % U32, planes % U32, some h.bufs.length, 1,
        ((cols % U32 : Nat) : Int), (((rows % U32) * (cols % U32) % U32 : Nat) : Int)⟩) := by
  rw [set_size, if_neg hne, if_neg hz]

end ImageView

namespace ImageView

variable {α : Type}

theorem read_canonical {v : ImageView α} {h : Heap α} {bid : Nat} {buf : List α}
    (hor : v.m_origin = some bid) (hb : h.bufs[bid]? = some buf)
    (hcs : v.m_cstride = 1) (hrs : v.m_rstride = (v.m_cols : Int))
    (hps : v.m_pstride = ((v.m_rows * v.m_cols : Nat) : Int)) (c r p : Nat) :
    v.read h (c : Int) (r : Int) (p : Int) = buf[offNat v.m_cols v.m_rows c r p]? := by
  simp only [read, derefAt, hor, hb, offInt_canonical hcs hrs hps]
  rw [if_pos (by positivity), Int.toNat_ofNat]

theorem rasterize_read_canonical (src : Producer α) {v : ImageView α} {h : Heap α} {bid : Nat}
    (hor : v.m_origin = some bid)
    (hcs : v.m_cstride = 1) (hrs : v.m_rstride = (v.m_cols : Int))
    (hps : v.m_pstride = ((v.m_rows * v.m_cols : Nat) : Int))
    (hlen : lenAt h bid = some (v.m_cols * v.m_rows * v.m_planes))
    {c r p : Nat} (hc : c < v.m_cols) (hr : r < v.m_rows) (hp : p < v.m_planes) :
    v.read (rasterize h src v) (c : Int) (r : Int) (p : Int) = some (src.eval c r p) := by
  unfold rasterize
  exact fold_write_read v src.eval hor hcs hrs hps
    (rasterCoords v.m_cols v.m_rows v.m_planes) h hlen
    (fun q hq => mem_rasterCoords.mp hq) c r p hc hr hp
    (mem_rasterCoords.mpr ⟨hc, hr, hp⟩)

end ImageView

theorem rasterize_lenAt {α : Type} (h : Heap α) (src : Producer α) (dest : ImageView α)
    (i : Nat) : lenAt (rasterize h src dest) i = lenAt h i := by
  unfold rasterize
  exact ImageView.foldl_write_lenAt dest (fun _ q => src.eval q.1 q.2.1 q.2.2) _ h i

theorem addrInv_lenAt {α : Type} {h' h : Heap α} {v : ImageView α}
    (hl : ∀ i, lenAt h' i = lenAt h i) (hinv : AddrInv h v) : AddrInv h' v := by
  intro bid hbid
  obtain ⟨buf, hbuf, hbound⟩ := hinv bid hbid
  have hb2 := hl bid
  simp only [lenAt, hbuf] at hb2
  rcases hb' : h'.bufs[bid]? with _ | buf'
  · rw [hb'] at hb2; simp at hb2
  · rw [hb'] at hb2
    simp only [Option.map_some', Option.some.injEq] at hb2
    exact ⟨buf', rfl, fun c r p hc hr hp =>
      ⟨(hbound c r p hc hr hp).1, hb2 ▸ (hbound c r p hc hr hp).2⟩⟩

theorem addrInv_set_size {α : Type} [Zero α] (fund : Bool) (un : α) (h : Heap α)
    (v : ImageView α) (cols rows planes : Nat) (hinv : AddrInv h v)
    (hc : cols < U32) (hr : rows < U32) (hp : planes < U32)
    (hlt : cols * rows * planes < U32) :
    AddrInv (ImageView.set_size fund un h v cols rows planes).1
      (ImageView.set_size fund un h v cols rows planes).2 := by
  have hc' : cols % U32 = cols := Nat.mod_eq_of_lt hc
  have hr' : rows % U32 = rows := Nat.mod_eq_of_lt hr
  have hp' : planes % U32 = planes := Nat.mod_eq_of_lt hp
  by_cases hext : cols % U32 = v.m_cols ∧ rows % U32 = v.m_rows ∧ planes % U32 = v.m_planes
  · rw [ImageView.set_size_noop fund un h hext]
    exact hinv
  by_cases hz : ((cols % U32) * (rows % U32) * (planes % U32)) % U32 = 0
  · rw [ImageView.set_size_zero fund un h hext hz]
    intro bid hbid
    simp at hbid
  · rw [ImageView.set_size_alloc fund un h hext hz]
    intro bid hbid
    obtain rfl : h.bufs.length = bid := Option.some_injective _ hbid
    refine ⟨List.replicate (((cols % U32) * (rows % U32) * (planes % U32)) % U32)
        (if fund then (0 : α) else un), ?_, ?_⟩
    · show (h.bufs ++ [_])[h.bufs.length]? = _
      exact List.getElem?_concat_length _ _
    · intro c r p hcc hrr hpp
      have hcc2 : c < cols := by
        have h2 : c < cols % U32 := hcc
        rwa [hc'] at h2
      have hrr2 : r < rows := by
        have h2 : r < rows % U32 := hrr
        rwa [hr'] at h2
      have hpp2 : p < planes := by
        have h2 : p < planes % U32 := hpp
        rwa [hp'] at h2
      have hpl : 0 < planes := Nat.lt_of_le_of_lt (Nat.zero_le p) hpp2
      have hrc : rows * cols < U32 := by
        have h4 : cols * rows * 1 ≤ cols * rows * planes := Nat.mul_le_mul_left _ hpl
        have h5 : rows * cols = cols * rows * 1 := by ring
        omega
      have hsz : ((cols % U32) * (rows % U32) * (planes % U32)) % U32 =
          cols * rows * planes := by
        rw [hc', hr', hp', Nat.mod_eq_of_lt hlt]
      have hoffc : ImageView.stridedOffset
          (⟨some h.bufs.length, cols % U32, rows % U32, planes % U32, some h.bufs.length, 1,
            ((cols % U32 : Nat) : Int), (((rows % U32) * (cols % U32) % U32 : Nat) : Int)⟩ :
            ImageView α) (c : Int) (r : Int) (p : Int) =
          ((offNat cols rows c r p : Nat) : Int) := by
        simp only [ImageView.stridedOffset]
        rw [hc', hr', Nat.mod_eq_of_lt hrc]
        push_cast [offNat]
        ring
      rw [hoffc]
      refine ⟨by positivity, ?_⟩
      rw [Int.toNat_ofNat, List.length_replicate, hsz]
      exact offNat_lt hcc2 hrr2 hpp2

/-- C6 (confirmed).  `operator()` is exactly the strided address formula: the
three-argument form reads the element at
`origin + c*col_stride + r*row_stride + p*plane_stride` for arbitrary (also
negative or zero) strides and performs no bounds check, and the two-argument
form is the same map with the plane term absent, i.e. with `p = 0`. -/
theorem c6_operator_address_formula {α : Type} :
    (∀ (h : Heap α) (v : ImageView α) (c r : Int), v.read2 h c r = v.read h c r 0) ∧
    (∀ (h : Heap α) (v : ImageView α) (c r p : Int),
      v.read h c r p = derefAt h v.m_origin (v.stridedOffset c r p)) := by
  constructor
  · intro h v c r
    simp only [ImageView.read2, ImageView.read]
    congr 1
    ring
  · intro h v c r p
    rfl

/-- C3 (confirmed).  A copy-constructed view aliases the original's buffer:
a pixel stored through either view is immediately visible through the other,
and since the copy shares handle, origin and strides, reads through the two
views agree on every heap whatsoever, hence after any sequence of reads and
writes through either (as long as neither is resized, which would replace the
copied fields). -/
theorem c3_shallow_copy_aliasing {α : Type} (h : Heap α) (A : ImageView α)
    (c r p : Int) (x : α) (hok : (A.read h c r p).isSome) :
    ((ImageView.copy A).read (A.write h c r p x) c r p = some x) ∧
    (A.read ((ImageView.copy A).write h c r p x) c r p = some x) ∧
    (∀ (h2 : Heap α) (c2 r2 p2 : Int),
      (ImageView.copy A).read h2 c2 r2 p2 = A.read h2 c2 r2 p2) := by
  have hcopy : ImageView.copy A = A := rfl
  refine ⟨?_, ?_, ?_⟩
  · rw [hcopy]
    exact ImageView.read_write_same x hok
  · rw [hcopy]
    exact ImageView.read_write_same x hok
  · intro h2 c2 r2 p2
    rw [hcopy]

/-- Witness for C3 at the concrete 2 by 2 view: storing 7 at coordinate
(1,1,0) through the original is read back through the copy. -/
theorem c3_shallow_copy_aliasing_w :
    ((ImageView.copy egView).read (egView.write egHeap 1 1 0 7) 1 1 0 = some 7) ∧
    (egView.read ((ImageView.copy egView).write egHeap 1 1 0 7) 1 1 0 = some 7) ∧
    ((ImageView.copy egView).read egHeap 0 0 0 = egView.read egHeap 0 0 0) := by
  have t := c3_shallow_copy_aliasing egHeap egView 1 1 0 7 (by decide)
  exact ⟨t.1, t.2.1, t.2.2 egHeap 0 0 0⟩

/-- C4 (confirmed).  Resizing view A to a genuinely different extent detaches
A onto a fresh buffer and leaves an aliased copy B fully intact: B's extent
and strides are the copied ones, and every pixel B reads from the post-resize
heap is exactly what it read before (`set_size` only ever appends a fresh
buffer to the arena or drops A's handle; it never touches B's buffer). -/
theorem c4_resize_detaches {α : Type} [Zero α] (fund : Bool) (un : α) (h : Heap α)
    (A : ImageView α) (cols rows planes : Nat)
    (hvalid : ∀ bid, A.m_origin = some bid → bid < h.bufs.length)
    (hne : ¬(cols % U32 = A.m_cols ∧ rows % U32 = A.m_rows ∧ planes % U32 = A.m_planes)) :
    ((ImageView.copy A).m_cols = A.m_cols ∧ (ImageView.copy A).m_rows = A.m_rows ∧
     (ImageView.copy A).m_planes = A.m_planes ∧ (ImageView.copy A).m_cstride = A.m_cstride ∧
     (ImageView.copy A).m_rstride = A.m_rstride ∧ (ImageView.copy A).m_pstride = A.m_pstride) ∧
    (∀ c r p : Int,
      (ImageView.copy A).read (ImageView.set_size fund un h A cols rows planes).1 c r p =
        (ImageView.copy A).read h c r p) := by
  constructor
  · exact ⟨rfl, rfl, rfl, rfl, rfl, rfl⟩
  · intro c r p
    have hcopy : ImageView.copy A = A := rfl
    rw [hcopy]
    by_cases hz : ((cols % U32) * (rows % U32) * (planes % U32)) % U32 = 0
    · rw [ImageView.set_size_zero fund un h hne hz]
    · rw [ImageView.set_size_alloc fund un h hne hz]
      rcases hov : A.m_origin with _ | bid
      · rw [ImageView.read_origin_none hov, ImageView.read_origin_none hov]
      · have hlt := hvalid bid hov
        simp only [ImageView.read, derefAt, hov]
        rw [List.getElem?_append_left hlt]

/-- Witness for C4: resizing the concrete view to 3 by 3 leaves the aliased
copy's metadata and its reading of pixel (0,0,0) unchanged. -/
theorem c4_resize_detaches_w :
    ((ImageView.copy egView).m_cols = egView.m_cols ∧
     (ImageView.copy egView).m_rows = egView.m_rows ∧
     (ImageView.copy egView).m_planes = egView.m_planes ∧
     (ImageView.copy egView).m_cstride = egView.m_cstride ∧
     (ImageView.copy egView).m_rstride = egView.m_rstride ∧
     (ImageView.copy egView).m_pstride = egView.m_pstride) ∧
    ((ImageView.copy egView).read
        (ImageView.set_size true (0 : Int) egHeap egView 3 3 1).1 0 0 0 =
      (ImageView.copy egView).read egHeap 0 0 0) := by
  have t := c4_resize_detaches true (0 : Int) egHeap egView 3 3 1
    (by
      intro bid hb
      have hb2 : (some 0 : Option Nat) = some bid := hb
      injection hb2 with he
      rw [← he]
      decide)
    (by decide)
  exact ⟨t.1, t.2 0 0 0⟩

/-- C7 (confirmed).  Self-assignment through the rasterization path is the
identity: assigning a view to itself first calls `set_size` with its own
extent (the early-return no-op branch), then rewrites every element with the
value just read from the same location, so the heap and the view are both
returned completely unchanged. -/
theorem c7_self_assign_identity {α : Type} [Zero α] (fund : Bool) (un d : α)
    (h : Heap α) (v : ImageView α)
    (hc : v.m_cols < U32) (hr : v.m_rows < U32) (hp : v.m_planes < U32) :
    assignV fund un d h v v = (h, v) := by
  have hnoop : ImageView.set_size fund un h v v.m_cols v.m_rows v.m_planes = (h, v) :=
    ImageView.set_size_noop fund un h
      ⟨Nat.mod_eq_of_lt hc, Nat.mod_eq_of_lt hr, Nat.mod_eq_of_lt hp⟩
  have hras : rasterizeView h d v v = h := by
    unfold rasterizeView
    apply foldl_fixed
    intro hh q _
    exact ImageView.write_read_self v hh q.1 q.2.1 q.2.2 d
  simp only [assignV, hnoop, hras]

/-- Witness for C7: the concrete 2 by 2 view assigned to itself returns the
arena and the view unchanged. -/
theorem c7_self_assign_identity_w :
    assignV true (0 : Int) 0 egHeap egView egView = (egHeap, egView) :=
  c7_self_assign_identity true 0 0 egHeap egView (by decide) (by decide) (by decide)

/-- C8 (confirmed).  The interop copy from a foreign `vil_image_view` into a
view whose element type carries `channels` interleaved channels with
`channels` different from one checks the foreign plane count first: on a
mismatch it raises the `ArgumentErr` condition with the expected and actual
counts, before any resize or data transfer, so the error result carries no
modified heap or view whatsoever (no partial copy). -/
theorem c8_interop_plane_mismatch {α : Type} [Zero α] (channels : Nat) (fund : Bool)
    (un : α) (h : Heap α) (v : ImageView α) (src : VilImageView α)
    (hch : channels ≠ 1) (hnp : src.nplanes ≠ channels) :
    assignVil channels fund un h v src =
      Except.error (errMsgPlanes channels src.nplanes) := by
  rw [assignVil, if_pos ⟨hch, hnp⟩]

/-- Witness for C8, spec scenario 5: a 3-channel element type fed from a
1-plane foreign source raises the condition. -/
theorem c8_interop_plane_mismatch_w :
    assignVil 3 true (0 : Int) egHeap egView ⟨4, 4, 1, fun _ _ _ => 0⟩ =
      Except.error (errMsgPlanes 3 1) :=
  c8_interop_plane_mismatch 3 true 0 egHeap egView ⟨4, 4, 1, fun _ _ _ => 0⟩
    (by decide) (by decide)

/-- C2 counterexample.  `set_size(65536, 65536, 1)` on a fresh empty view
requests an extent differing from the current one, so the claim demands a
fresh zero-filled buffer of `65536*65536*1` elements.  Instead the unsigned
element count wraps to zero: the view reports the new extent but owns no
buffer at all, and reading coordinate (0,0,0) is not zero but undefined. -/
theorem c2_counterexample :
    (ImageView.set_size true (0 : Int) ⟨[]⟩ (ImageView.default0 Int) 65536 65536 1).2.m_cols
        = 65536 ∧
    bufLen (ImageView.set_size true (0 : Int) ⟨[]⟩ (ImageView.default0 Int) 65536 65536 1).1
      (ImageView.set_size true (0 : Int) ⟨[]⟩ (ImageView.default0 Int) 65536 65536 1).2 =
        none ∧
    (ImageView.set_size true (0 : Int) ⟨[]⟩ (ImageView.default0 Int) 65536 65536 1).2.read
      (ImageView.set_size true (0 : Int) ⟨[]⟩ (ImageView.default0 Int) 65536 65536 1).1
      0 0 0 = none :=
  ⟨rfl, rfl, rfl⟩

/-- C2 (corrected).  As C2 states, but restricted to requests whose true
volume `cols*rows*planes` is nonzero and below `2^32` (otherwise the unsigned
element count wraps, as the counterexample shows): `set_size` to a differing
extent discards the old handle, allocates a fresh buffer of exactly the new
extent (a new arena slot; the old buffers are untouched), resets the strides
to the canonical `1, cols, rows*cols`, and, for a fundamental element type,
zero-initializes the storage, so every in-range coordinate reads zero. -/
theorem c2_resize_fresh_zeroed {α : Type} [Zero α] (un : α) (h : Heap α)
    (v : ImageView α) (cols rows planes : Nat)
    (hc : cols < U32) (hr : rows < U32) (hp : planes < U32)
    (hne : ¬(cols = v.m_cols ∧ rows = v.m_rows ∧ planes = v.m_planes))
    (hpos : 0 < cols * rows * planes) (hlt : cols * rows * planes < U32) :
    ((ImageView.set_size true un h v cols rows planes).2.m_data = some h.bufs.length ∧
     (ImageView.set_size true un h v cols rows planes).1.bufs =
       h.bufs ++ [List.replicate (cols * rows * planes) (0 : α)] ∧
     (ImageView.set_size true un h v cols rows planes).2.m_cols = cols ∧
     (ImageView.set_size true un h v cols rows planes).2.m_rows = rows ∧
     (ImageView.set_size true un h v cols rows planes).2.m_planes = planes ∧
     (ImageView.set_size true un h v cols rows planes).2.m_cstride = 1 ∧
     (ImageView.set_size true un h v cols rows planes).2.m_rstride = (cols : Int) ∧
     (ImageView.set_size true un h v cols rows planes).2.m_pstride =
       ((rows * cols : Nat) : Int)) ∧
    (∀ c r p : Nat, c < cols → r < rows → p < planes →
      (ImageView.set_size true un h v cols rows planes).2.read
        (ImageView.set_size true un h v cols rows planes).1 (c : Int) (r : Int) (p : Int) =
        some (0 : α)) := by
  have hc' : cols % U32 = cols := Nat.mod_eq_of_lt hc
  have hr' : rows % U32 = rows := Nat.mod_eq_of_lt hr
  have hp' : planes % U32 = planes := Nat.mod_eq_of_lt hp
  have hne' : ¬(cols % U32 = v.m_cols ∧ rows % U32 = v.m_rows ∧
      planes % U32 = v.m_planes) := by
    rw [hc', hr', hp']
    exact hne
  have hpl : 0 < planes := by
    rcases Nat.eq_zero_or_pos planes with h0 | h0
    · rw [h0, Nat.mul_zero] at hpos
      exact absurd hpos (by omega)
    · exact h0
  have hrc : rows * cols < U32 := by
    have h4 : cols * rows * 1 ≤ cols * rows * planes := Nat.mul_le_mul_left _ hpl
    have h5 : rows * cols = cols * rows * 1 := by ring
    omega
  have hsz : ((cols % U32) * (rows % U32) * (planes % U32)) % U32 =
      cols * rows * planes := by
    rw [hc', hr', hp', Nat.mod_eq_of_lt hlt]
  have hz : ¬((cols % U32) * (rows % U32) * (planes % U32)) % U32 = 0 := by
    rw [hsz]
    omega
  rw [ImageView.set_size_alloc true un h hne' hz]
  have hps0 : (((rows % U32) * (cols % U32) % U32 : Nat) : Int) =
      ((rows * cols : Nat) : Int) := by
    rw [hr', hc', Nat.mod_eq_of_lt hrc]
  refine ⟨⟨rfl, ?_, hc', hr', hp', rfl, by rw [hc'], hps0⟩, ?_⟩
  · show h.bufs ++ [_] = h.bufs ++ [_]
    rw [hsz]
    simp
  · intro c r p hcc hrr hpp
    have hb : (⟨h.bufs ++ [List.replicate
        (((cols % U32) * (rows % U32) * (planes % U32)) % U32)
        (if true then (0 : α) else un)]⟩ : Heap α).bufs[h.bufs.length]? =
        some (List.replicate (((cols % U32) * (rows % U32) * (planes % U32)) % U32)
          (if true then (0 : α) else un)) :=
      List.getElem?_concat_length _ _
    have hps1 : (((rows % U32) * (cols % U32) % U32 : Nat) : Int) =
        (((rows % U32) * (cols % U32) : Nat) : Int) := by
      rw [hr', hc', Nat.mod_eq_of_lt hrc]
    refine (ImageView.read_canonical rfl hb rfl rfl hps1 c r p).trans ?_
    show (List.replicate _ _)[offNat (cols % U32) (rows % U32) c r p]? = _
    rw [hsz, hc', hr',
      List.getElem?_replicate_of_lt (offNat_lt hcc hrr hpp)]
    simp

/-- Witness for C2: resizing the empty view to 2 by 3 on an empty arena
yields a fresh zero buffer of six elements and coordinate (1,2,0) reads
zero. -/
theorem c2_resize_fresh_zeroed_w :
    ((ImageView.set_size true (0 : Int) ⟨[]⟩ (ImageView.default0 Int) 2 3 1).2.m_data =
       some 0 ∧
     (ImageView.set_size true (0 : Int) ⟨[]⟩ (ImageView.default0 Int) 2 3 1).1.bufs =
       [List.replicate 6 (0 : Int)] ∧
     (ImageView.set_size true (0 : Int) ⟨[]⟩ (ImageView.default0 Int) 2 3 1).2.m_cols = 2 ∧
     (ImageView.set_size true (0 : Int) ⟨[]⟩ (ImageView.default0 Int) 2 3 1).2.m_rows = 3 ∧
     (ImageView.set_size true (0 : Int) ⟨[]⟩ (ImageView.default0 Int) 2 3 1).2.m_planes = 1 ∧
     (ImageView.set_size true (0 : Int) ⟨[]⟩ (ImageView.default0 Int) 2 3 1).2.m_cstride = 1 ∧
     (ImageView.set_size true (0 : Int) ⟨[]⟩ (ImageView.default0 Int) 2 3 1).2.m_rstride =
       (2 : Int) ∧
     (ImageView.set_size true (0 : Int) ⟨[]⟩ (ImageView.default0 Int) 2 3 1).2.m_pstride =
       (6 : Int)) ∧
    ((ImageView.set_size true (0 : Int) ⟨[]⟩ (ImageView.default0 Int) 2 3 1).2.read
      (ImageView.set_size true (0 : Int) ⟨[]⟩ (ImageView.default0 Int) 2 3 1).1
      ((1 : Nat) : Int) ((2 : Nat) : Int) ((0 : Nat) : Int) = some (0 : Int)) := by
  have t := c2_resize_fresh_zeroed (0 : Int) ⟨[]⟩ (ImageView.default0 Int) 2 3 1
    (by decide) (by decide) (by decide) (by decide) (by decide) (by decide)
  exact ⟨t.1, t.2 1 2 0 (by decide) (by decide) (by decide)⟩

/-- C9 (confirmed).  `set_size` computes the element count
`cols*rows*planes` in unsigned 32-bit modular arithmetic.  When the true
product is at least `2^32` the stored extents still report the requested
values, yet the allocated buffer holds only `cols*rows*planes mod 2^32`
elements, fewer than the extents describe; and when the product wraps to
exactly zero no buffer is allocated at all (null handle and origin). -/
theorem c9_size_mod_2pow32 {α : Type} [Zero α] (fund : Bool) (un : α) (h : Heap α)
    (v : ImageView α) (cols rows planes : Nat)
    (hc : cols < U32) (hr : rows < U32) (hp : planes < U32)
    (hne : ¬(cols = v.m_cols ∧ rows = v.m_rows ∧ planes = v.m_planes))
    (hbig : U32 ≤ cols * rows * planes) :
    ((ImageView.set_size fund un h v cols rows planes).2.m_cols = cols ∧
     (ImageView.set_size fund un h v cols rows planes).2.m_rows = rows ∧
     (ImageView.set_size fund un h v cols rows planes).2.m_planes = planes) ∧
    ((cols * rows * planes) % U32 ≠ 0 →
      bufLen (ImageView.set_size fund un h v cols rows planes).1
          (ImageView.set_size fund un h v cols rows planes).2 =
        some ((cols * rows * planes) % U32) ∧
      (cols * rows * planes) % U32 < cols * rows * planes) ∧
    ((cols * rows * planes) % U32 = 0 →
      (ImageView.set_size fund un h v cols rows planes).2.m_data = none ∧
      (ImageView.set_size fund un h v cols rows planes).2.m_origin = none) := by
  have hc' : cols % U32 = cols := Nat.mod_eq_of_lt hc
  have hr' : rows % U32 = rows := Nat.mod_eq_of_lt hr
  have hp' : planes % U32 = planes := Nat.mod_eq_of_lt hp
  have hne' : ¬(cols % U32 = v.m_cols ∧ rows % U32 = v.m_rows ∧
      planes % U32 = v.m_planes) := by
    rw [hc', hr', hp']
    exact hne
  have hsz : ((cols % U32) * (rows % U32) * (planes % U32)) % U32 =
      (cols * rows * planes) % U32 := by
    rw [hc', hr', hp']
  by_cases hz : (cols * rows * planes) % U32 = 0
  · have hz' : ((cols % U32) * (rows % U32) * (planes % U32)) % U32 = 0 := by
      rw [hsz]
      exact hz
    rw [ImageView.set_size_zero fund un h hne' hz']
    exact ⟨⟨hc', hr', hp'⟩, fun hnz => absurd hz hnz, fun _ => ⟨rfl, rfl⟩⟩
  · have hz' : ¬((cols % U32) * (rows % U32) * (planes % U32)) % U32 = 0 := by
      rw [hsz]
      exact hz
    rw [ImageView.set_size_alloc fund un h hne' hz']
    refine ⟨⟨hc', hr', hp'⟩, fun _ => ⟨?_, ?_⟩, fun h0 => absurd h0 hz⟩
    · show (some h.bufs.length).bind _ = _
      rw [Option.some_bind]
      show ((h.bufs ++ [_])[h.bufs.length]?).map List.length = _
      rw [List.getElem?_concat_length, Option.map_some', List.length_replicate, hsz]
    · have h1 : (cols * rows * planes) % U32 < U32 :=
        Nat.mod_lt _ (by norm_num [U32])
      omega

/-- Witness for C9: requesting 65537 by 65536 by 1 (true volume
`2^32 + 2^16`) from the empty view stores those extents but allocates only
`2^16` elements. -/
theorem c9_size_mod_2pow32_w :
    ((ImageView.set_size true (0 : Int) ⟨[]⟩ (ImageView.default0 Int)
        65537 65536 1).2.m_cols = 65537 ∧
     (ImageView.set_size true (0 : Int) ⟨[]⟩ (ImageView.default0 Int)
        65537 65536 1).2.m_rows = 65536 ∧
     (ImageView.set_size true (0 : Int) ⟨[]⟩ (ImageView.default0 Int)
        65537 65536 1).2.m_planes = 1) ∧
    ((65537 * 65536 * 1) % U32 ≠ 0 →
      bufLen (ImageView.set_size true (0 : Int) ⟨[]⟩ (ImageView.default0 Int)
          65537 65536 1).1
        (ImageView.set_size true (0 : Int) ⟨[]⟩ (ImageView.default0 Int)
          65537 65536 1).2 = some ((65537 * 65536 * 1) % U32) ∧
      (65537 * 65536 * 1) % U32 < 65537 * 65536 * 1) ∧
    ((65537 * 65536 * 1) % U32 = 0 →
      (ImageView.set_size true (0 : Int) ⟨[]⟩ (ImageView.default0 Int)
        65537 65536 1).2.m_data = none ∧
      (ImageView.set_size true (0 : Int) ⟨[]⟩ (ImageView.default0 Int)
        65537 65536 1).2.m_origin = none) :=
  c9_size_mod_2pow32 true 0 ⟨[]⟩ (ImageView.default0 Int) 65537 65536 1
    (by norm_num [U32]) (by norm_num [U32]) (by norm_num [U32])
    (by decide) (by norm_num [U32])

/-- C10 counterexample.  `set_size(65536, 65536, 0)` is a zero-volume request
(planes is zero), so per C10 the plane stride should become
`rows*cols = 65536*65536 = 2^32`; the stored stride is instead the unsigned
product, which wraps to 0. -/
theorem c10_counterexample :
    (ImageView.set_size true (0 : Int) ⟨[]⟩ (ImageView.default0 Int)
        65536 65536 0).2.m_pstride ≠ ((65536 * 65536 : Nat) : Int) := by
  intro hcon
  have h1 : ((65536 * 65536 % U32 : Nat) : Int) = ((65536 * 65536 : Nat) : Int) := hcon
  norm_num [U32] at h1

/-- C10 (corrected).  As C10 states, except that the retained plane stride is
the unsigned 32-bit product `(rows*cols) mod 2^32`, not the true product
`rows*cols` (the counterexample wraps).  A zero-volume `set_size` releases
the buffer and nulls the origin while still reporting the requested (possibly
individually nonzero) extents, with strides `1`, `cols`,
`(rows*cols) mod 2^32` — unlike the all-zero empty state of the default
constructor and of `reset()`. -/
theorem c10_zero_volume_degenerate {α : Type} [Zero α] (fund : Bool) (un : α)
    (h : Heap α) (v : ImageView α) (cols rows planes : Nat)
    (hc : cols < U32) (hr : rows < U32) (hp : planes < U32)
    (h0 : cols = 0 ∨ rows = 0 ∨ planes = 0)
    (hne : ¬(cols = v.m_cols ∧ rows = v.m_rows ∧ planes = v.m_planes)) :
    ((ImageView.set_size fund un h v cols rows planes).2.m_data = none ∧
     (ImageView.set_size fund un h v cols rows planes).2.m_origin = none ∧
     (ImageView.set_size fund un h v cols rows planes).1 = h ∧
     (ImageView.set_size fund un h v cols rows planes).2.m_cols = cols ∧
     (ImageView.set_size fund un h v cols rows planes).2.m_rows = rows ∧
     (ImageView.set_size fund un h v cols rows planes).2.m_planes = planes ∧
     (ImageView.set_size fund un h v cols rows planes).2.m_cstride = 1 ∧
     (ImageView.set_size fund un h v cols rows planes).2.m_rstride = (cols : Int) ∧
     (ImageView.set_size fund un h v cols rows planes).2.m_pstride =
       ((rows * cols % U32 : Nat) : Int)) ∧
    ((ImageView.default0 α).m_cols = 0 ∧ (ImageView.default0 α).m_rows = 0 ∧
     (ImageView.default0 α).m_planes = 0 ∧
     (ImageView.reset v).m_cols = 0 ∧ (ImageView.reset v).m_rows = 0 ∧
     (ImageView.reset v).m_planes = 0) := by
  have hc' : cols % U32 = cols := Nat.mod_eq_of_lt hc
  have hr' : rows % U32 = rows := Nat.mod_eq_of_lt hr
  have hp' : planes % U32 = planes := Nat.mod_eq_of_lt hp
  have hne' : ¬(cols % U32 = v.m_cols ∧ rows % U32 = v.m_rows ∧
      planes % U32 = v.m_planes) := by
    rw [hc', hr', hp']
    exact hne
  have hz : ((cols % U32) * (rows % U32) * (planes % U32)) % U32 = 0 := by
    rcases h0 with h0 | h0 | h0 <;> subst h0 <;> simp
  rw [ImageView.set_size_zero fund un h hne' hz]
  exact ⟨⟨rfl, rfl, rfl, hc', hr', hp', rfl, by rw [hc'], by rw [hr', hc']⟩,
    rfl, rfl, rfl, rfl, rfl, rfl⟩

/-- Witness for C10: `set_size(5, 0, 2)` leaves a bufferless view that still
reports columns 5 and planes 2. -/
theorem c10_zero_volume_degenerate_w :
    ((ImageView.set_size true (0 : Int) ⟨[]⟩ (ImageView.default0 Int) 5 0 2).2.m_data =
       none ∧
     (ImageView.set_size true (0 : Int) ⟨[]⟩ (ImageView.default0 Int) 5 0 2).2.m_origin =
       none ∧
     (ImageView.set_size true (0 : Int) ⟨[]⟩ (ImageView.default0 Int) 5 0 2).1 = ⟨[]⟩ ∧
     (ImageView.set_size true (0 : Int) ⟨[]⟩ (ImageView.default0 Int) 5 0 2).2.m_cols = 5 ∧
     (ImageView.set_size true (0 : Int) ⟨[]⟩ (ImageView.default0 Int) 5 0 2).2.m_rows = 0 ∧
     (ImageView.set_size true (0 : Int) ⟨[]⟩ (ImageView.default0 Int) 5 0 2).2.m_planes =
       2 ∧
     (ImageView.set_size true (0 : Int) ⟨[]⟩ (ImageView.default0 Int) 5 0 2).2.m_cstride =
       1 ∧
     (ImageView.set_size true (0 : Int) ⟨[]⟩ (ImageView.default0 Int) 5 0 2).2.m_rstride =
       (5 : Int) ∧
     (ImageView.set_size true (0 : Int) ⟨[]⟩ (ImageView.default0 Int) 5 0 2).2.m_pstride =
       (0 : Int)) ∧
    ((ImageView.default0 Int).m_cols = 0 ∧ (ImageView.default0 Int).m_rows = 0 ∧
     (ImageView.default0 Int).m_planes = 0 ∧
     ((ImageView.default0 Int).reset).m_cols = 0 ∧
     ((ImageView.default0 Int).reset).m_rows = 0 ∧
     ((ImageView.default0 Int).reset).m_planes = 0) :=
  c10_zero_volume_degenerate true 0 ⟨[]⟩ (ImageView.default0 Int) 5 0 2
    (by norm_num [U32]) (by norm_num [U32]) (by norm_num [U32])
    (by decide) (by decide)

/-- C5 counterexample.  `set_size(65537, 65536, 1)` has true volume
`2^32 + 2^16`; the unsigned element count wraps to `2^16`, so the resulting
view is non-degenerate (it owns a live 65536-element buffer) yet the in-range
coordinate (0,2,0) maps under the strided formula to offset 131074, outside
the allocation: the address invariant of the claim fails on this reachable
view. -/
theorem c5_counterexample :
    ¬ AddrInv
      (ImageView.set_size true (0 : Int) ⟨[]⟩ (ImageView.default0 Int) 65537 65536 1).1
      (ImageView.set_size true (0 : Int) ⟨[]⟩ (ImageView.default0 Int) 65537 65536 1).2 := by
  intro hinv
  obtain ⟨buf, hbuf, hbound⟩ := hinv 0 rfl
  have hbuf2 : ([List.replicate 65536 (0 : Int)] : List (List Int))[0]? = some buf := hbuf
  have hbeq : buf = List.replicate 65536 (0 : Int) := by
    have h3 : some (List.replicate 65536 (0 : Int)) = some buf := hbuf2
    injection h3 with h4
    exact h4.symm
  have h2 := hbound 0 2 0 (by decide) (by decide) (by decide)
  have hoff : ImageView.stridedOffset
      (ImageView.set_size true (0 : Int) ⟨[]⟩ (ImageView.default0 Int) 65537 65536 1).2
      ((0 : Nat) : Int) ((2 : Nat) : Int) ((0 : Nat) : Int) = (131074 : Int) := by decide
  rw [hoff, hbeq] at h2
  have h5 := h2.2
  rw [List.length_replicate] at h5
  have h6 : (131074 : Int).toNat = 131074 := rfl
  omega

/-- C5 (corrected).  As C5 states, but restricted to extent requests whose
true volume is below `2^32` (the counterexample shows the invariant is
otherwise destroyed by the unsigned wrap): for every view satisfying the
address invariant — each in-range coordinate maps under the strided formula
inside the owned buffer — the invariant still holds after `set_size`, for a
copy-constructed view, after `reset`, and after assignment from a
rasterizable producer. -/
theorem c5_strided_invariant {α : Type} [Zero α] (fund : Bool) (un : α) (h : Heap α)
    (v : ImageView α) (cols rows planes : Nat) (src : Producer α)
    (hinv : AddrInv h v)
    (hc : cols < U32) (hr : rows < U32) (hp : planes < U32)
    (hlt : cols * rows * planes < U32)
    (hsc : src.cols < U32) (hsr : src.rows < U32) (hsp : src.planes < U32)
    (hslt : src.cols * src.rows * src.planes < U32) :
    AddrInv (ImageView.set_size fund un h v cols rows planes).1
      (ImageView.set_size fund un h v cols rows planes).2 ∧
    AddrInv h (ImageView.copy v) ∧
    AddrInv h (ImageView.reset v) ∧
    AddrInv (assignP fund un h v src).1 (assignP fund un h v src).2 := by
  refine ⟨addrInv_set_size fund un h v cols rows planes hinv hc hr hp hlt, ?_, ?_, ?_⟩
  · exact hinv
  · intro bid hbid
    simp [ImageView.reset] at hbid
  · have h1 := addrInv_set_size fund un h v src.cols src.rows src.planes hinv hsc hsr hsp hslt
    exact addrInv_lenAt
      (fun i => rasterize_lenAt
        (ImageView.set_size fund un h v src.cols src.rows src.planes).1 src
        (ImageView.set_size fund un h v src.cols src.rows src.planes).2 i) h1

/-- Witness for C5 on the concrete 2 by 2 view with its four-pixel buffer,
resized to 3 by 3 and assigned from a small producer. -/
theorem c5_strided_invariant_w :
    AddrInv (ImageView.set_size true (0 : Int) egHeap egView 3 3 1).1
      (ImageView.set_size true (0 : Int) egHeap egView 3 3 1).2 ∧
    AddrInv egHeap (ImageView.copy egView) ∧
    AddrInv egHeap (ImageView.reset egView) ∧
    AddrInv (assignP true (0 : Int) egHeap egView
        ⟨2, 2, 1, fun c r _ => (c : Int) + 10 * r⟩).1
      (assignP true (0 : Int) egHeap egView
        ⟨2, 2, 1, fun c r _ => (c : Int) + 10 * r⟩).2 := by
  have hbase : AddrInv egHeap egView := by
    intro bid hbid
    have hb2 : (some 0 : Option Nat) = some bid := hbid
    injection hb2 with he
    refine ⟨List.replicate 4 0, by rw [← he]; rfl, ?_⟩
    intro c r p hc hr hp
    have hc2 : c < 2 := hc
    have hr2 : r < 2 := hr
    have hp2 : p < 1 := hp
    interval_cases c <;> interval_cases r <;> interval_cases p <;> decide
  exact c5_strided_invariant true 0 egHeap egView 3 3 1
    ⟨2, 2, 1, fun c r _ => (c : Int) + 10 * r⟩ hbase
    (by norm_num [U32]) (by norm_num [U32]) (by norm_num [U32]) (by norm_num [U32])
    (by norm_num [U32]) (by norm_num [U32]) (by norm_num [U32]) (by norm_num [U32])

/-- C1 counterexample.  Assigning the producer with extent 65536 by 65536 by
1 (constant value 42) into a fresh empty view: the claim demands that
afterwards the view's extent equals the producer's (it does — cols() reports
65536) and that every in-range coordinate, in particular (0,0,0), reads the
producer's value 42.  Instead the unsigned element count computed by
`set_size` wraps to zero, no buffer is allocated, and the read of (0,0,0) is
undefined (no owned storage), not 42. -/
theorem c1_counterexample :
    (assignP true (0 : Int) ⟨[]⟩ (ImageView.default0 Int)
        ⟨65536, 65536, 1, fun _ _ _ => 42⟩).2.m_cols = 65536 ∧
    ¬ ((assignP true (0 : Int) ⟨[]⟩ (ImageView.default0 Int)
          ⟨65536, 65536, 1, fun _ _ _ => 42⟩).2.read
        (assignP true (0 : Int) ⟨[]⟩ (ImageView.default0 Int)
          ⟨65536, 65536, 1, fun _ _ _ => 42⟩).1 0 0 0 = some (42 : Int)) := by
  constructor
  · rfl
  · intro hcon
    have hread : (assignP true (0 : Int) ⟨[]⟩ (ImageView.default0 Int)
        ⟨65536, 65536, 1, fun _ _ _ => 42⟩).2.read
        (assignP true (0 : Int) ⟨[]⟩ (ImageView.default0 Int)
        ⟨65536, 65536, 1, fun _ _ _ => 42⟩).1 0 0 0 = none :=
      ImageView.read_origin_none rfl _ 0 0 0
    rw [hread] at hcon
    exact Option.noConfusion hcon

/-- C1 (corrected).  As C1 states, but restricted to producers whose true
volume `cols*rows*planes` is below `2^32` (the counterexample shows the
unsigned wrap otherwise loses the storage) and to views in a well-formed
(reachable) state: assignment from a rasterizable producer resizes the view
to the producer's extent and then rasterizes, so afterwards the extent equals
the producer's and every in-range coordinate reads exactly the producer's
per-coordinate value — pixel-for-pixel equivalence with the explicit loop. -/
theorem c1_assign_rasterizes_pixelwise {α : Type} [Zero α] (fund : Bool) (un : α)
    (h : Heap α) (v : ImageView α) (src : Producer α)
    (hwf : WF h v) (hsc : src.cols < U32) (hsr : src.rows < U32) (hsp : src.planes < U32)
    (hprod : src.cols * src.rows * src.planes < U32) :
    ((assignP fund un h v src).2.m_cols = src.cols ∧
     (assignP fund un h v src).2.m_rows = src.rows ∧
     (assignP fund un h v src).2.m_planes = src.planes) ∧
    (∀ c r p : Nat, c < src.cols → r < src.rows → p < src.planes →
      (assignP fund un h v src).2.read (assignP fund un h v src).1
        (c : Int) (r : Int) (p : Int) = some (src.eval c r p)) := by
  obtain ⟨hvc, hvr, hvp, hod, hcase⟩ := hwf
  have hc' : src.cols % U32 = src.cols := Nat.mod_eq_of_lt hsc
  have hr' : src.rows % U32 = src.rows := Nat.mod_eq_of_lt hsr
  have hp' : src.planes % U32 = src.planes := Nat.mod_eq_of_lt hsp
  by_cases hext : src.cols % U32 = v.m_cols ∧ src.rows % U32 = v.m_rows ∧
      src.planes % U32 = v.m_planes
  · have hvce : v.m_cols = src.cols := by rw [← hext.1, hc']
    have hvre : v.m_rows = src.rows := by rw [← hext.2.1, hr']
    have hvpe : v.m_planes = src.planes := by rw [← hext.2.2, hp']
    have hnoop : ImageView.set_size fund un h v src.cols src.rows src.planes = (h, v) :=
      ImageView.set_size_noop fund un h hext
    have hassign : assignP fund un h v src = (rasterize h src v, v) := by
      simp only [assignP, hnoop]
    rw [hassign]
    refine ⟨⟨hvce, hvre, hvpe⟩, ?_⟩
    intro c r p hcc hrr hpp
    have h1 : 0 < src.cols := Nat.lt_of_le_of_lt (Nat.zero_le c) hcc
    have h2 : 0 < src.rows := Nat.lt_of_le_of_lt (Nat.zero_le r) hrr
    have h3 : 0 < src.planes := Nat.lt_of_le_of_lt (Nat.zero_le p) hpp
    have hprodpos : 0 < src.cols * src.rows * src.planes :=
      Nat.mul_pos (Nat.mul_pos h1 h2) h3
    rcases hcase with ⟨hdn, hz⟩ | ⟨bid, buf, hdb, hbuf, hcs, hrs, hps, hlen⟩
    · exfalso
      rw [hvce, hvre, hvpe, Nat.mod_eq_of_lt hprod] at hz
      omega
    · have hor : v.m_origin = some bid := by rw [hod, hdb]
      have hrc : v.m_rows * v.m_cols < U32 := by
        rw [hvre, hvce]
        have h4 : src.cols * src.rows * 1 ≤ src.cols * src.rows * src.planes :=
          Nat.mul_le_mul_left _ h3
        have h5 : src.rows * src.cols = src.cols * src.rows * 1 := by ring
        omega
      have hps2 : v.m_pstride = ((v.m_rows * v.m_cols : Nat) : Int) := by
        rw [hps, Nat.mod_eq_of_lt hrc]
      have hlen2 : lenAt h bid = some (v.m_cols * v.m_rows * v.m_planes) := by
        rw [lenAt, hbuf, Option.map_some', hlen]
        congr 1
        rw [hvce, hvre, hvpe, Nat.mod_eq_of_lt hprod]
      exact ImageView.rasterize_read_canonical src hor hcs hrs hps2 hlen2
        (by rw [hvce]; exact hcc) (by rw [hvre]; exact hrr) (by rw [hvpe]; exact hpp)
  · by_cases hz0 : ((src.cols % U32) * (src.rows % U32) * (src.planes % U32)) % U32 = 0
    · have hzero := ImageView.set_size_zero fund un h hext hz0
      simp only [assignP, hzero]
      refine ⟨⟨hc', hr', hp'⟩, ?_⟩
      intro c r p hcc hrr hpp
      exfalso
      have h1 : 0 < src.cols := Nat.lt_of_le_of_lt (Nat.zero_le c) hcc
      have h2 : 0 < src.rows := Nat.lt_of_le_of_lt (Nat.zero_le r) hrr
      have h3 : 0 < src.planes := Nat.lt_of_le_of_lt (Nat.zero_le p) hpp
      have hprodpos : 0 < src.cols * src.rows * src.planes :=
        Nat.mul_pos (Nat.mul_pos h1 h2) h3
      rw [hc', hr', hp', Nat.mod_eq_of_lt hprod] at hz0
      omega
    · have halloc := ImageView.set_size_alloc fund un h hext hz0
      simp only [assignP, halloc]
      refine ⟨⟨hc', hr', hp'⟩, ?_⟩
      intro c r p hcc hrr hpp
      have h3 : 0 < src.planes := Nat.lt_of_le_of_lt (Nat.zero_le p) hpp
      have hrc : src.rows * src.cols < U32 := by
        have h4 : src.cols * src.rows * 1 ≤ src.cols * src.rows * src.planes :=
          Nat.mul_le_mul_left _ h3
        have h5 : src.rows * src.cols = src.cols * src.rows * 1 := by ring
        omega
      have hps2 : (((src.rows % U32) * (src.cols % U32) % U32 : Nat) : Int) =
          (((src.rows % U32) * (src.cols % U32) : Nat) : Int) := by
        rw [hr', hc', Nat.mod_eq_of_lt hrc]
      have hlen2 : lenAt
          (⟨h.bufs ++ [List.replicate
            (((src.cols % U32) * (src.rows % U32) * (src.planes % U32)) % U32)
            (if fund then (0 : α) else un)]⟩ : Heap α) h.bufs.length =
          some ((src.cols % U32) * (src.rows % U32) * (src.planes % U32)) := by
        show ((h.bufs ++ [_])[h.bufs.length]?).map List.length = _
        rw [List.getElem?_concat_length, Option.map_some', List.length_replicate]
        congr 1
        rw [hc', hr', hp', Nat.mod_eq_of_lt hprod]
      exact ImageView.rasterize_read_canonical src rfl rfl rfl hps2 hlen2
        (by rw [hc']; exact hcc) (by rw [hr']; exact hrr) (by rw [hp']; exact hpp)

/-- Witness for C1, spec scenario 4: the producer `value = c + 10*r` with
extent 3 by 2 assigned into a fresh view yields extent 3 by 2 and pixel
(2,1,0) reads 12. -/
theorem c1_assign_rasterizes_pixelwise_w :
    ((assignP true (0 : Int) ⟨[]⟩ (ImageView.default0 Int)
        ⟨3, 2, 1, fun c r _ => (c : Int) + 10 * r⟩).2.m_cols = 3 ∧
     (assignP true (0 : Int) ⟨[]⟩ (ImageView.default0 Int)
        ⟨3, 2, 1, fun c r _ => (c : Int) + 10 * r⟩).2.m_rows = 2 ∧
     (assignP true (0 : Int) ⟨[]⟩ (ImageView.default0 Int)
        ⟨3, 2, 1, fun c r _ => (c : Int) + 10 * r⟩).2.m_planes = 1) ∧
    ((assignP true (0 : Int) ⟨[]⟩ (ImageView.default0 Int)
        ⟨3, 2, 1, fun c r _ => (c : Int) + 10 * r⟩).2.read
      (assignP true (0 : Int) ⟨[]⟩ (ImageView.default0 Int)
        ⟨3, 2, 1, fun c r _ => (c : Int) + 10 * r⟩).1
      ((2 : Nat) : Int) ((1 : Nat) : Int) ((0 : Nat) : Int) = some (12 : Int)) := by
  have hwf : WF (⟨[]⟩ : Heap Int) (ImageView.default0 Int) := by
    exact ⟨by decide, by decide, by decide, rfl, Or.inl ⟨rfl, rfl⟩⟩
  have t := c1_assign_rasterizes_pixelwise true (0 : Int) ⟨[]⟩ (ImageView.default0 Int)
    ⟨3, 2, 1, fun c r _ => (c : Int) + 10 * r⟩ hwf
    (by norm_num [U32]) (by norm_num [U32]) (by norm_num [U32]) (by norm_num [U32])
  refine ⟨t.1, ?_⟩
  have h12 := t.2 2 1 0 (by norm_num) (by norm_num) (by norm_num)
  have heval : ((2 : Nat) : Int) + 10 * ((1 : Nat) : Int) = 12 := by norm_num
  rw [h12]
  norm_num
